import Mathlib

/-!
# Snake game (`04_snake_game/main.go`): state-advance core

A shallow embedding of the game state, the wraparound arithmetic, the state
transitions and the event loop of `main.go`, followed by theorems about them.

Conventions of the embedding.

* A Go `int` is the 64-bit `int` of the usual targets: an `Int` together
  with explicit two's-complement wraparound at 64 bits (`wrapInt`) after
  every `+` and `-`; `%` is Go's truncated remainder, which panics on a zero
  divisor and cannot overflow.
* A Go run-time panic is the `error` branch of `Except GoPanic`.
* `math/rand` is a library: its global source is an explicit value
  `RandSrc` threaded through the calls, and `rand.Intn` follows its
  documented contract.
* `termbox.Size()` is a library query of the terminal: each call site takes
  the pair it returns as arguments `w h`.
* Rendering (`draw` and everything below it) writes to the terminal only and
  never touches the `game` value, so it does not appear.
-/

namespace Snake

/-! ## Go integers -/

/-- Run-time panics reachable from the modelled code. -/
inductive GoPanic where
  | divideByZero
  | intnInvalidArgument
  deriving DecidableEq, Repr

deriving instance DecidableEq for Except

/-- Smallest 64-bit Go `int`. -/
def minInt : Int := -9223372036854775808

/-- Largest 64-bit Go `int`. -/
def maxInt : Int := 9223372036854775807

/-- The value is representable as a 64-bit Go `int`. -/
def IsInt (z : Int) : Prop := minInt ≤ z ∧ z ≤ maxInt

instance (z : Int) : Decidable (IsInt z) := by
  unfold IsInt; infer_instance

/-- Two's-complement wraparound of a mathematical integer to 64 bits. -/
def wrapInt (z : Int) : Int :=
  (z + 9223372036854775808) % 18446744073709551616 - 9223372036854775808

/-- Go `a + b` on `int`. -/
def goAdd (a b : Int) : Int := wrapInt (a + b)

/-- Go `a - b` on `int`. -/
def goSub (a b : Int) : Int := wrapInt (a - b)

/-- Go `n % m` on `int`: truncated remainder (sign of the dividend), with a
run-time panic when the divisor is zero. -/
def goRem (n m : Int) : Except GoPanic Int :=
  if m = 0 then .error .divideByZero else .ok (Int.tmod n m)

/-! ## Data model -/

/-- Go `coord`: a coordinate on a plane. -/
structure coord where
  x : Int
  y : Int
  deriving DecidableEq, Repr

/-- Go `snake`. -/
structure snake where
  pos : coord
  deriving DecidableEq, Repr

/-- Go `applePos`. -/
structure applePos where
  pos : coord
  deriving DecidableEq, Repr

/-- Go `eee`. -/
structure eee where
  pos : coord
  deriving DecidableEq, Repr

/-- Go `game`: a state of the game. -/
structure game where
  sn : snake
  v : coord
  apple : applePos
  e : eee
  fieldWidth : Int
  fieldHeight : Int
  deriving DecidableEq, Repr

/-! ## The random source -/

/-- State of the global `math/rand` source: the raw values it is going to
produce and how many of them have been consumed. -/
structure RandSrc where
  draws : Nat → Nat
  used : Nat

/-- Library `rand.Intn(n)`: panics when `n <= 0`, otherwise consumes one raw
value of the source and returns a number in `[0, n)`. -/
def Intn (r : RandSrc) (n : Int) : Except GoPanic (Int × RandSrc) :=
  if n ≤ 0 then .error .intnInvalidArgument
  else .ok (((r.draws r.used : Nat) : Int) % n, { r with used := r.used + 1 })

/-! ## Constructors -/

/-- Go `newApple`. -/
def newApple (r : RandSrc) (maxX maxY : Int) : Except GoPanic (applePos × RandSrc) :=
  match Intn r maxX with
  | .error p => .error p
  | .ok (x, r1) =>
    match Intn r1 maxY with
    | .error p => .error p
    | .ok (y, r2) => .ok ({ pos := { x := x, y := y } }, r2)

/-- Go `newEnergy`. -/
def newEnergy (r : RandSrc) (maxX maxY : Int) : Except GoPanic (eee × RandSrc) :=
  match Intn r maxX with
  | .error p => .error p
  | .ok (x, r1) =>
    match Intn r1 maxY with
    | .error p => .error p
    | .ok (y, r2) => .ok ({ pos := { x := x, y := y } }, r2)

/-- Go `newSnake`. -/
def newSnake (r : RandSrc) (maxX maxY : Int) : Except GoPanic (snake × RandSrc) :=
  match Intn r maxX with
  | .error p => .error p
  | .ok (x, r1) =>
    match Intn r1 maxY with
    | .error p => .error p
    | .ok (y, r2) => .ok ({ pos := { x := x, y := y } }, r2)

/-- Go `newGame`; `w h` is what `termbox.Size()` returns. The calls in the
composite literal run in source order: `newSnake`, `newApple`, `newEnergy`. -/
def newGame (w h : Int) (r : RandSrc) : Except GoPanic (game × RandSrc) :=
  match newSnake r w h with
  | .error p => .error p
  | .ok (s, r1) =>
    match newApple r1 w h with
    | .error p => .error p
    | .ok (a, r2) =>
      match newEnergy r2 w h with
      | .error p => .error p
      | .ok (en, r3) =>
        .ok ({ sn := s, v := { x := 1, y := 0 }, apple := a, e := en,
               fieldWidth := w, fieldHeight := h }, r3)

/-! ## Coordinate arithmetic and movement -/

/-- Go `mod`: `(n%m + m) % m`. -/
def mod (n m : Int) : Except GoPanic Int :=
  match goRem n m with
  | .error p => .error p
  | .ok a => goRem (goAdd a m) m

/-- Go `moveSnake`. -/
def moveSnake (s : snake) (v : coord) (fw fh : Int) : Except GoPanic snake :=
  match mod (goAdd s.pos.x v.x) fw with
  | .error p => .error p
  | .ok x =>
    match mod (goAdd s.pos.y v.y) fh with
    | .error p => .error p
    | .ok y => .ok { pos := { x := x, y := y } }

/-- Go `step`: move the snake, then redraw. -/
def step (g : game) : Except GoPanic game :=
  match moveSnake g.sn g.v g.fieldWidth g.fieldHeight with
  | .error p => .error p
  | .ok s => .ok { g with sn := s }

/-! ## Consumption -/

/-- Go `aplleEaten`; `w h` is what its own `termbox.Size()` call returns. -/
def aplleEaten (g : game) (w h : Int) (r : RandSrc) : Except GoPanic (applePos × RandSrc) :=
  if g.apple.pos.x = g.sn.pos.x ∧ g.apple.pos.y = g.sn.pos.y then newApple r w h
  else .ok (g.apple, r)

/-- Go `eEaten`; `w h` is what its own `termbox.Size()` call returns. -/
def eEaten (g : game) (w h : Int) (r : RandSrc) : Except GoPanic (eee × RandSrc) :=
  if g.e.pos.x = g.sn.pos.x ∧ g.e.pos.y = g.sn.pos.y then newEnergy r w h
  else .ok (g.e, r)

/-! ## Heading control -/

/-- Go `moveLeft`. -/
def moveLeft (g : game) : game := { g with v := { x := -1, y := 0 } }

/-- Go `moveRight`. -/
def moveRight (g : game) : game := { g with v := { x := 1, y := 0 } }

/-- Go `moveUp`. -/
def moveUp (g : game) : game := { g with v := { x := 0, y := -1 } }

/-- Go `moveDown`. -/
def moveDown (g : game) : game := { g with v := { x := 0, y := 1 } }

/-! ## Border crash -/

/-- Go `borderCrash`. -/
def borderCrash (g : game) : Bool :=
  if g.sn.pos.x = 0 ∨ g.sn.pos.y = 0 ∨ g.sn.pos.x = goSub g.fieldWidth 1
      ∨ g.sn.pos.y = goSub g.fieldHeight 1 then true
  else false

/-! ## The event loop of `main` -/

/-- The `ev.Key` values the loop distinguishes; `Other` is any other key. -/
inductive Key where
  | ArrowDown
  | ArrowUp
  | ArrowLeft
  | ArrowRight
  | Esc
  | Other
  deriving DecidableEq, Repr

/-- What one `select` of the loop receives: a termbox event of type
`EventKey`, a termbox event of another type, or a tick of the ticker. -/
inductive Event where
  | key (k : Key)
  | nonKey
  | tick
  deriving DecidableEq, Repr

/-- Why the loop returned. -/
inductive Reason where
  | Quit
  | BorderCrash
  deriving DecidableEq, Repr

/-- State of the loop; a terminated loop keeps the game value it ended with. -/
inductive LoopState where
  | Running (g : game)
  | Terminated (reason : Reason) (g : game)
  deriving DecidableEq, Repr

/-- The `select` statement of the loop body: the key switch and the ticker
case. -/
def service (ev : Event) (g : game) : Except GoPanic LoopState :=
  match ev with
  | .key .ArrowDown => .ok (.Running (moveDown g))
  | .key .ArrowUp => .ok (.Running (moveUp g))
  | .key .ArrowLeft => .ok (.Running (moveLeft g))
  | .key .ArrowRight => .ok (.Running (moveRight g))
  | .key .Esc => .ok (.Terminated .Quit g)
  | .key .Other => .ok (.Running g)
  | .nonKey => .ok (.Running g)
  | .tick =>
    if borderCrash g then .ok (.Terminated .BorderCrash g)
    else
      match step g with
      | .error p => .error p
      | .ok g1 => .ok (.Running g1)

/-- The two statements after the `select`: `g.apple = aplleEaten(g)` and
`g.e = eEaten(g)`; `wa ha` and `we he` are the terminal sizes the two
functions read. -/
def consume (g : game) (wa ha we he : Int) (r : RandSrc) : Except GoPanic (game × RandSrc) :=
  match aplleEaten g wa ha r with
  | .error p => .error p
  | .ok (a, r1) =>
    match eEaten { g with apple := a } we he r1 with
    | .error p => .error p
    | .ok (en, r2) => .ok ({ g with apple := a, e := en }, r2)

/-- What the environment supplies to one iteration: the event the `select`
receives and the terminal size at the two `termbox.Size()` calls. -/
structure Input where
  ev : Event
  wa : Int
  ha : Int
  we : Int
  he : Int

/-- One iteration of the `for` loop. A `return` inside the `select` skips
the consumption checks. -/
def iteration (i : Input) (g : game) (r : RandSrc) : Except GoPanic (LoopState × RandSrc) :=
  match service i.ev g with
  | .error p => .error p
  | .ok (.Terminated reason g1) => .ok (.Terminated reason g1, r)
  | .ok (.Running g1) =>
    match consume g1 i.wa i.ha i.we i.he r with
    | .error p => .error p
    | .ok (g2, r2) => .ok (.Running g2, r2)

/-- The loop over a finite list of inputs, started with game `g`: it stops
consuming inputs once an iteration returns. -/
def run : List Input → game → RandSrc → Except GoPanic (LoopState × RandSrc)
  | [], g, r => .ok (.Running g, r)
  | i :: rest, g, r =>
    match iteration i g r with
    | .error p => .error p
    | .ok (.Terminated reason g1, r1) => .ok (.Terminated reason g1, r1)
    | .ok (.Running g1, r1) => run rest g1 r1

/-- The program from `newGame` on: `w h` is the terminal size at startup. -/
def play (w h : Int) (r : RandSrc) (inputs : List Input) : Except GoPanic (LoopState × RandSrc) :=
  match newGame w h r with
  | .error p => .error p
  | .ok (g, r1) => run inputs g r1

/-! ## Predicates used by the statements -/

/-- The actor is inside `[0,W) × [0,H)`. -/
def InField (g : game) : Prop :=
  0 ≤ g.sn.pos.x ∧ g.sn.pos.x < g.fieldWidth ∧ 0 ≤ g.sn.pos.y ∧ g.sn.pos.y < g.fieldHeight

instance (g : game) : Decidable (InField g) := by
  unfold InField; infer_instance

/-- The heading is one of the four cardinal unit vectors. -/
def Cardinal (v : coord) : Prop :=
  v = { x := -1, y := 0 } ∨ v = { x := 1, y := 0 } ∨ v = { x := 0, y := -1 } ∨ v = { x := 0, y := 1 }

instance (v : coord) : Decidable (Cardinal v) := by
  unfold Cardinal; infer_instance

/-- The actor is on the outer ring of the field. -/
def OnRing (g : game) : Prop :=
  g.sn.pos.x = 0 ∨ g.sn.pos.x = g.fieldWidth - 1 ∨ g.sn.pos.y = 0 ∨ g.sn.pos.y = g.fieldHeight - 1

instance (g : game) : Decidable (OnRing g) := by
  unfold OnRing; infer_instance

/-- The actor is strictly inside the field. -/
def Interior (g : game) : Prop :=
  0 < g.sn.pos.x ∧ g.sn.pos.x < g.fieldWidth - 1 ∧ 0 < g.sn.pos.y ∧ g.sn.pos.y < g.fieldHeight - 1

instance (g : game) : Decidable (Interior g) := by
  unfold Interior; infer_instance

/-- A random source whose raw values are all `n`. -/
def constSrc (n : Nat) : RandSrc := { draws := fun _ => n, used := 0 }

/-- The 10x10 example state of the scenarios: actor, heading, both
consumables. -/
def mk10 (ax ay dx dy : Int) (apple en : coord) : game :=
  { sn := { pos := { x := ax, y := ay } }, v := { x := dx, y := dy },
    apple := { pos := apple }, e := { pos := en }, fieldWidth := 10, fieldHeight := 10 }

/-- A 10x10 input whose two terminal-size reads still give 10x10. -/
def input10 (ev : Event) : Input := { ev := ev, wa := 10, ha := 10, we := 10, he := 10 }

/-- Scenario 4: 10x10 field, actor at `(4,4)`, apple at `(4,4)`, energy
pellet at `(7,7)`. -/
def g44 : game := mk10 4 4 1 0 ⟨4, 4⟩ ⟨7, 7⟩

/-- Every state the loop can be in: the game value of some execution of
`main` after finitely many iterations, all of which kept the loop running. -/
def Reachable (g : game) : Prop :=
  ∃ (w h : Int) (r : RandSrc) (inputs : List Input) (r1 : RandSrc),
    play w h r inputs = .ok (.Running g, r1)

/-- Largest modulus for which `n%m + m` cannot overflow: `2^62`. -/
def safeDim : Int := 4611686018427387904

/-- Both field dimensions are positive and at most `2^62`. -/
def SmallField (g : game) : Prop :=
  0 < g.fieldWidth ∧ g.fieldWidth ≤ safeDim ∧ 0 < g.fieldHeight ∧ g.fieldHeight ≤ safeDim

instance (g : game) : Decidable (SmallField g) := by
  unfold SmallField; infer_instance

/-! ## Arithmetic lemmas -/

theorem wrapInt_of_isInt {z : Int} (h : IsInt z) : wrapInt z = z := by
  unfold IsInt minInt maxInt at h
  unfold wrapInt
  omega

theorem neg_tmod_left : ∀ (a b : Int), Int.tmod (-a) b = -(Int.tmod a b)
  | Int.ofNat 0, b => by simp
  | Int.ofNat (n+1), Int.ofNat m => rfl
  | Int.ofNat (n+1), Int.negSucc m => rfl
  | Int.negSucc n, Int.ofNat m => by
      show Int.tmod (-(Int.negSucc n)) (Int.ofNat m) = - (-(Int.ofNat ((n+1) % m)))
      rw [Int.neg_neg]; rfl
  | Int.negSucc n, Int.negSucc m => by
      show Int.tmod (-(Int.negSucc n)) (Int.negSucc m) = - (-(Int.ofNat ((n+1) % (m+1))))
      rw [Int.neg_neg]; rfl

theorem neg_lt_tmod (n : Int) {m : Int} (hm : 0 < m) : -m < Int.tmod n m := by
  rcases Int.le_total 0 n with h | h
  · have := Int.tmod_nonneg m h; omega
  · have h1 : Int.tmod n m = -(Int.tmod (-n) m) := by
      rw [neg_tmod_left]; simp
    have h2 := Int.tmod_lt_of_pos (-n) hm
    omega

theorem tmod_add_emod (n m : Int) : (Int.tmod n m + m) % m = n % m := by
  rw [Int.tmod_def]
  have : n - m * n.tdiv m + m = n + m * (1 - n.tdiv m) := by ring
  rw [this, Int.add_mul_emod_self_left]

/-- With a non-zero modulus `mod` returns, and what it returns is the
expression of the source read in Go arithmetic. -/
theorem mod_of_ne_zero (n : Int) {m : Int} (hm : m ≠ 0) :
    mod n m = .ok (Int.tmod (goAdd (Int.tmod n m) m) m) := by
  simp [mod, goRem, hm]

/-- With a zero modulus `mod` panics. -/
theorem mod_zero (n : Int) : mod n 0 = .error .divideByZero := by
  simp [mod, goRem]

/-- For a modulus in `(0, 2^62]` the sum `n%m + m` does not overflow and
`mod` is the mathematical modulo. -/
theorem mod_eq_emod (n : Int) {m : Int} (hm : 0 < m) (hs : m ≤ safeDim) :
    mod n m = .ok (n % m) := by
  rw [mod_of_ne_zero n (Int.ne_of_gt hm)]
  have h1 := neg_lt_tmod n hm
  have h2 := Int.tmod_lt_of_pos n hm
  have h3 : goAdd (Int.tmod n m) m = Int.tmod n m + m := by
    unfold goAdd
    apply wrapInt_of_isInt
    unfold IsInt minInt maxInt
    unfold safeDim at hs
    omega
  rw [h3, Int.tmod_eq_emod (by omega) (Int.le_of_lt hm), tmod_add_emod]

/-- Range and congruence of `mod` for a modulus in `(0, 2^62]`. -/
theorem mod_spec_small (n : Int) {m : Int} (hm : 0 < m) (hs : m ≤ safeDim) :
    ∃ v, mod n m = .ok v ∧ 0 ≤ v ∧ v < m ∧ m ∣ v - n := by
  refine ⟨n % m, mod_eq_emod n hm hs, Int.emod_nonneg n (Int.ne_of_gt hm),
    Int.emod_lt_of_pos n hm, ?_⟩
  have h := Int.emod_add_ediv n m
  exact ⟨-(n / m), by rw [Int.mul_neg]; omega⟩

/-! ## The random source and the constructors -/

theorem Intn_of_pos (r : RandSrc) {n : Int} (hn : 0 < n) :
    Intn r n = .ok (((r.draws r.used : Nat) : Int) % n, { r with used := r.used + 1 }) := by
  simp [Intn, Int.not_le.mpr hn]

theorem newApple_of_pos (r : RandSrc) {w h : Int} (hw : 0 < w) (hh : 0 < h) :
    newApple r w h =
      .ok ({ pos := { x := ((r.draws r.used : Nat) : Int) % w,
                      y := ((r.draws (r.used + 1) : Nat) : Int) % h } },
           { r with used := r.used + 2 }) := by
  simp [newApple, Intn_of_pos _ hw, Intn_of_pos _ hh]

theorem newEnergy_of_pos (r : RandSrc) {w h : Int} (hw : 0 < w) (hh : 0 < h) :
    newEnergy r w h =
      .ok ({ pos := { x := ((r.draws r.used : Nat) : Int) % w,
                      y := ((r.draws (r.used + 1) : Nat) : Int) % h } },
           { r with used := r.used + 2 }) := by
  simp [newEnergy, Intn_of_pos _ hw, Intn_of_pos _ hh]

theorem newSnake_of_pos (r : RandSrc) {w h : Int} (hw : 0 < w) (hh : 0 < h) :
    newSnake r w h =
      .ok ({ pos := { x := ((r.draws r.used : Nat) : Int) % w,
                      y := ((r.draws (r.used + 1) : Nat) : Int) % h } },
           { r with used := r.used + 2 }) := by
  simp [newSnake, Intn_of_pos _ hw, Intn_of_pos _ hh]

theorem newApple_eq_ok {r r1 : RandSrc} {w h : Int} {a : applePos}
    (e : newApple r w h = .ok (a, r1)) :
    0 < w ∧ 0 < h ∧ 0 ≤ a.pos.x ∧ a.pos.x < w ∧ 0 ≤ a.pos.y ∧ a.pos.y < h
      ∧ r1 = { r with used := r.used + 2 } := by
  by_cases hw : 0 < w
  · by_cases hh : 0 < h
    · rw [newApple_of_pos r hw hh] at e
      injection e with e
      injection e with ha hr
      subst ha
      exact ⟨hw, hh, Int.emod_nonneg _ (Int.ne_of_gt hw), Int.emod_lt_of_pos _ hw,
        Int.emod_nonneg _ (Int.ne_of_gt hh), Int.emod_lt_of_pos _ hh, hr.symm⟩
    · simp [newApple, Intn, Int.not_lt.mp hh, Int.not_le.mpr hw] at e
  · simp [newApple, Intn, Int.not_lt.mp hw] at e

theorem newEnergy_eq_ok {r r1 : RandSrc} {w h : Int} {a : eee}
    (e : newEnergy r w h = .ok (a, r1)) :
    0 < w ∧ 0 < h ∧ 0 ≤ a.pos.x ∧ a.pos.x < w ∧ 0 ≤ a.pos.y ∧ a.pos.y < h
      ∧ r1 = { r with used := r.used + 2 } := by
  by_cases hw : 0 < w
  · by_cases hh : 0 < h
    · rw [newEnergy_of_pos r hw hh] at e
      injection e with e
      injection e with ha hr
      subst ha
      exact ⟨hw, hh, Int.emod_nonneg _ (Int.ne_of_gt hw), Int.emod_lt_of_pos _ hw,
        Int.emod_nonneg _ (Int.ne_of_gt hh), Int.emod_lt_of_pos _ hh, hr.symm⟩
    · simp [newEnergy, Intn, Int.not_lt.mp hh, Int.not_le.mpr hw] at e
  · simp [newEnergy, Intn, Int.not_lt.mp hw] at e

theorem newSnake_eq_ok {r r1 : RandSrc} {w h : Int} {a : snake}
    (e : newSnake r w h = .ok (a, r1)) :
    0 < w ∧ 0 < h ∧ 0 ≤ a.pos.x ∧ a.pos.x < w ∧ 0 ≤ a.pos.y ∧ a.pos.y < h
      ∧ r1 = { r with used := r.used + 2 } := by
  by_cases hw : 0 < w
  · by_cases hh : 0 < h
    · rw [newSnake_of_pos r hw hh] at e
      injection e with e
      injection e with ha hr
      subst ha
      exact ⟨hw, hh, Int.emod_nonneg _ (Int.ne_of_gt hw), Int.emod_lt_of_pos _ hw,
        Int.emod_nonneg _ (Int.ne_of_gt hh), Int.emod_lt_of_pos _ hh, hr.symm⟩
    · simp [newSnake, Intn, Int.not_lt.mp hh, Int.not_le.mpr hw] at e
  · simp [newSnake, Intn, Int.not_lt.mp hw] at e

/-- On a terminal of positive size `newGame` returns. -/
theorem newGame_of_pos (r : RandSrc) {w h : Int} (hw : 0 < w) (hh : 0 < h) :
    ∃ g r1, newGame w h r = .ok (g, r1) := by
  simp [newGame, newSnake_of_pos _ hw hh, newApple_of_pos _ hw hh, newEnergy_of_pos _ hw hh]

/-- What `newGame` returns: the terminal size is positive and became the
field, the actor is inside the field, the heading is rightward. -/
theorem newGame_eq_ok {r r1 : RandSrc} {w h : Int} {g : game}
    (e : newGame w h r = .ok (g, r1)) :
    0 < w ∧ 0 < h ∧ g.fieldWidth = w ∧ g.fieldHeight = h ∧ InField g
      ∧ g.v = { x := 1, y := 0 } := by
  unfold newGame at e
  split at e
  · cases e
  · rename_i s ra hs
    have hs1 := newSnake_eq_ok hs
    obtain ⟨hw, hh, hx0, hx1, hy0, hy1, -⟩ := hs1
    rw [newApple_of_pos _ hw hh] at e
    simp only [newEnergy_of_pos _ hw hh] at e
    injection e with e
    injection e with hg hr
    subst hg
    exact ⟨hw, hh, rfl, rfl, ⟨hx0, hx1, hy0, hy1⟩, rfl⟩

/-! ## Movement and border crash -/

theorem moveSnake_of_ne_zero (s : snake) (v : coord) {fw fh : Int} (hw : fw ≠ 0) (hh : fh ≠ 0) :
    moveSnake s v fw fh =
      .ok { pos := { x := Int.tmod (goAdd (Int.tmod (goAdd s.pos.x v.x) fw) fw) fw,
                     y := Int.tmod (goAdd (Int.tmod (goAdd s.pos.y v.y) fh) fh) fh } } := by
  simp [moveSnake, mod_of_ne_zero _ hw, mod_of_ne_zero _ hh]

theorem moveSnake_small (s : snake) (v : coord) {fw fh : Int} (hw : 0 < fw) (hws : fw ≤ safeDim)
    (hh : 0 < fh) (hhs : fh ≤ safeDim) :
    moveSnake s v fw fh =
      .ok { pos := { x := goAdd s.pos.x v.x % fw, y := goAdd s.pos.y v.y % fh } } := by
  simp [moveSnake, mod_eq_emod _ hw hws, mod_eq_emod _ hh hhs]

theorem borderCrash_eq_true (g : game) :
    borderCrash g = true ↔
      (g.sn.pos.x = 0 ∨ g.sn.pos.y = 0 ∨ g.sn.pos.x = goSub g.fieldWidth 1
        ∨ g.sn.pos.y = goSub g.fieldHeight 1) := by
  simp [borderCrash]

theorem goSub_one {w : Int} (h : IsInt w) (hm : minInt < w) : goSub w 1 = w - 1 := by
  unfold goSub
  apply wrapInt_of_isInt
  unfold IsInt minInt maxInt at *
  omega

theorem borderCrash_iff_onRing (g : game) (hw : IsInt g.fieldWidth) (hh : IsInt g.fieldHeight)
    (hw1 : minInt < g.fieldWidth) (hh1 : minInt < g.fieldHeight) :
    borderCrash g = true ↔ OnRing g := by
  rw [borderCrash_eq_true, goSub_one hw hw1, goSub_one hh hh1]
  unfold OnRing
  tauto

theorem isInt_of_small {w : Int} (h0 : 0 < w) (hs : w ≤ safeDim) : IsInt w ∧ minInt < w := by
  unfold IsInt minInt maxInt
  unfold safeDim at hs
  omega

/-! ## The loop -/

theorem step_eq_ok {g g1 : game} (e : step g = .ok g1) :
    ∃ s, moveSnake g.sn g.v g.fieldWidth g.fieldHeight = .ok s ∧ g1 = { g with sn := s } := by
  unfold step at e
  split at e
  · cases e
  · rename_i s hs
    injection e with e
    exact ⟨s, hs, e.symm⟩

theorem service_tick_running {g g1 : game} (h : service .tick g = .ok (.Running g1)) :
    borderCrash g = false ∧ step g = .ok g1 := by
  simp only [service] at h
  split at h
  · cases h
  · rename_i hb
    split at h
    · cases h
    · rename_i g2 hs
      injection h with h
      injection h with h
      subst h
      exact ⟨by simpa using hb, hs⟩

theorem service_dims {ev : Event} {g g1 : game} (h : service ev g = .ok (.Running g1)) :
    g1.fieldWidth = g.fieldWidth ∧ g1.fieldHeight = g.fieldHeight := by
  cases ev with
  | key k =>
    cases k <;> simp [service] at h <;> subst h <;> exact ⟨rfl, rfl⟩
  | nonKey =>
    simp [service] at h; subst h; exact ⟨rfl, rfl⟩
  | tick =>
    obtain ⟨-, hs⟩ := service_tick_running h
    obtain ⟨s, -, hg⟩ := step_eq_ok hs
    subst hg
    exact ⟨rfl, rfl⟩

theorem aplleEaten_eq_ok {g : game} {w h : Int} {r r1 : RandSrc} {a : applePos}
    (e : aplleEaten g w h r = .ok (a, r1)) :
    ((g.apple.pos.x ≠ g.sn.pos.x ∨ g.apple.pos.y ≠ g.sn.pos.y) → a = g.apple ∧ r1 = r) ∧
    ((g.apple.pos.x = g.sn.pos.x ∧ g.apple.pos.y = g.sn.pos.y) → newApple r w h = .ok (a, r1)) := by
  unfold aplleEaten at e
  split at e
  · rename_i hc
    exact ⟨fun hne => by rcases hne with hne | hne; exact absurd hc.1 hne; exact absurd hc.2 hne,
      fun _ => e⟩
  · rename_i hc
    injection e with e
    injection e with ha hr
    exact ⟨fun _ => ⟨ha.symm, hr.symm⟩, fun hc1 => absurd hc1 hc⟩

theorem eEaten_eq_ok {g : game} {w h : Int} {r r1 : RandSrc} {a : eee}
    (e : eEaten g w h r = .ok (a, r1)) :
    ((g.e.pos.x ≠ g.sn.pos.x ∨ g.e.pos.y ≠ g.sn.pos.y) → a = g.e ∧ r1 = r) ∧
    ((g.e.pos.x = g.sn.pos.x ∧ g.e.pos.y = g.sn.pos.y) → newEnergy r w h = .ok (a, r1)) := by
  unfold eEaten at e
  split at e
  · rename_i hc
    exact ⟨fun hne => by rcases hne with hne | hne; exact absurd hc.1 hne; exact absurd hc.2 hne,
      fun _ => e⟩
  · rename_i hc
    injection e with e
    injection e with ha hr
    exact ⟨fun _ => ⟨ha.symm, hr.symm⟩, fun hc1 => absurd hc1 hc⟩

/-- A `consume` that returns is the two checks in sequence, and it changes
the two consumables only. -/
theorem consume_eq_ok {g g2 : game} {wa ha we he : Int} {r r2 : RandSrc}
    (e : consume g wa ha we he r = .ok (g2, r2)) :
    ∃ a rA en, aplleEaten g wa ha r = .ok (a, rA)
      ∧ eEaten { g with apple := a } we he rA = .ok (en, r2)
      ∧ g2 = { g with apple := a, e := en } := by
  unfold consume at e
  split at e
  · cases e
  · rename_i a rA hA
    split at e
    · cases e
    · rename_i en rE hE
      injection e with e
      injection e with hg hr
      subst hr
      exact ⟨a, rA, en, hA, hE, hg.symm⟩

/-- An iteration that leaves the loop running is a `select` that left it
running followed by the two consumption checks. -/
theorem iteration_running {i : Input} {g g2 : game} {r r2 : RandSrc}
    (e : iteration i g r = .ok (.Running g2, r2)) :
    ∃ g1, service i.ev g = .ok (.Running g1)
      ∧ consume g1 i.wa i.ha i.we i.he r = .ok (g2, r2) := by
  unfold iteration at e
  split at e
  · cases e
  · cases e
  · rename_i g1 hs
    split at e
    · cases e
    · rename_i g3 r3 hc
      injection e with e
      injection e with hg hr
      injection hg with hg
      subst hg hr
      exact ⟨g1, hs, hc⟩

theorem iteration_dims {i : Input} {g g2 : game} {r r2 : RandSrc}
    (e : iteration i g r = .ok (.Running g2, r2)) :
    g2.fieldWidth = g.fieldWidth ∧ g2.fieldHeight = g.fieldHeight := by
  obtain ⟨g1, hs, hc⟩ := iteration_running e
  obtain ⟨a, rA, en, -, -, hg⟩ := consume_eq_ok hc
  have hd := service_dims hs
  subst hg
  exact hd

theorem run_dims : ∀ (inputs : List Input) {g g2 : game} {r r2 : RandSrc},
    run inputs g r = .ok (.Running g2, r2) →
    g2.fieldWidth = g.fieldWidth ∧ g2.fieldHeight = g.fieldHeight
  | [], g, g2, r, r2, e => by
      unfold run at e
      injection e with e
      injection e with hg hr
      injection hg with hg
      subst hg
      exact ⟨rfl, rfl⟩
  | i :: rest, g, g2, r, r2, e => by
      unfold run at e
      split at e
      · cases e
      · cases e
      · rename_i g1 r1 hi
        have h1 := iteration_dims hi
        have h2 := run_dims rest e
        exact ⟨h2.1.trans h1.1, h2.2.trans h1.2⟩

/-- The field of a reachable state has positive width and height: `newGame`
panics otherwise, and nothing in the loop assigns the two fields. -/
theorem Reachable.dims_pos {g : game} (hr : Reachable g) :
    0 < g.fieldWidth ∧ 0 < g.fieldHeight := by
  obtain ⟨w, h, r, inputs, r1, e⟩ := hr
  unfold play at e
  split at e
  · cases e
  · rename_i g0 r0 hn
    obtain ⟨hw, hh, hfw, hfh, -, -⟩ := newGame_eq_ok hn
    obtain ⟨h1, h2⟩ := run_dims inputs e
    rw [h1, h2, hfw, hfh]
    exact ⟨hw, hh⟩

/-! ## Fields of at most `2^62` cells a side -/

theorem Cardinal.bounds {v : coord} (h : Cardinal v) :
    -1 ≤ v.x ∧ v.x ≤ 1 ∧ -1 ≤ v.y ∧ v.y ≤ 1 := by
  rcases h with h | h | h | h <;> rw [h] <;> decide

theorem goAdd_small {x d w : Int} (h0 : 0 ≤ x) (h1 : x < w) (hs : w ≤ safeDim)
    (hd0 : -1 ≤ d) (hd1 : d ≤ 1) : goAdd x d = x + d := by
  unfold goAdd
  apply wrapInt_of_isInt
  unfold IsInt minInt maxInt
  unfold safeDim at hs
  omega

/-- In a small field a step returns and puts the actor inside the field,
wherever it was. -/
theorem step_small {g : game} (hf : SmallField g) :
    ∃ g1, step g = .ok g1 ∧ InField g1 ∧ g1.v = g.v ∧ g1.apple = g.apple ∧ g1.e = g.e
      ∧ g1.fieldWidth = g.fieldWidth ∧ g1.fieldHeight = g.fieldHeight := by
  obtain ⟨hw, hws, hh, hhs⟩ := hf
  refine ⟨{ g with sn := { pos := { x := goAdd g.sn.pos.x g.v.x % g.fieldWidth,
                                      y := goAdd g.sn.pos.y g.v.y % g.fieldHeight } } },
    by simp only [step, moveSnake_small g.sn g.v hw hws hh hhs], ?_, rfl, rfl, rfl, rfl, rfl⟩
  exact ⟨Int.emod_nonneg _ (Int.ne_of_gt hw), Int.emod_lt_of_pos _ hw,
    Int.emod_nonneg _ (Int.ne_of_gt hh), Int.emod_lt_of_pos _ hh⟩

/-- In a small field the `select` never panics. -/
theorem service_small_total (ev : Event) {g : game} (hf : SmallField g) :
    ∃ st, service ev g = .ok st := by
  cases ev with
  | key k => cases k <;> exact ⟨_, rfl⟩
  | nonKey => exact ⟨_, rfl⟩
  | tick =>
    obtain ⟨g1, hs, -⟩ := step_small hf
    by_cases hb : borderCrash g = true
    · exact ⟨.Terminated .BorderCrash g, by simp [service, hb]⟩
    · exact ⟨.Running g1, by simp [service, hb, hs]⟩

/-- In a small field the `select` keeps the actor inside the field and the
heading cardinal. -/
theorem service_small_inv {ev : Event} {g g1 : game} (hf : SmallField g) (hi : InField g)
    (hc : Cardinal g.v) (h : service ev g = .ok (.Running g1)) :
    SmallField g1 ∧ InField g1 ∧ Cardinal g1.v := by
  cases ev with
  | key k =>
    cases k <;> simp [service] at h <;> subst h
    · exact ⟨hf, hi, by simp [moveDown, Cardinal]⟩
    · exact ⟨hf, hi, by simp [moveUp, Cardinal]⟩
    · exact ⟨hf, hi, by simp [moveLeft, Cardinal]⟩
    · exact ⟨hf, hi, by simp [moveRight, Cardinal]⟩
    · exact ⟨hf, hi, hc⟩
  | nonKey =>
    simp [service] at h; subst h; exact ⟨hf, hi, hc⟩
  | tick =>
    obtain ⟨-, hs⟩ := service_tick_running h
    obtain ⟨g2, hs2, hin, hv, -, -, hw, hh⟩ := step_small hf
    rw [hs] at hs2
    injection hs2 with hs2
    subst hs2
    refine ⟨?_, hin, by rw [hv]; exact hc⟩
    unfold SmallField
    rw [hw, hh]
    exact hf

theorem consume_small_inv {g g2 : game} {wa ha we he : Int} {r r2 : RandSrc}
    (hf : SmallField g) (hi : InField g) (hc : Cardinal g.v)
    (e : consume g wa ha we he r = .ok (g2, r2)) :
    SmallField g2 ∧ InField g2 ∧ Cardinal g2.v := by
  obtain ⟨a, rA, en, -, -, hg⟩ := consume_eq_ok e
  subst hg
  exact ⟨hf, hi, hc⟩

/-- In a small field every iteration that keeps the loop running keeps the
actor inside the field and the heading cardinal. -/
theorem iteration_small_inv {i : Input} {g g2 : game} {r r2 : RandSrc}
    (hf : SmallField g) (hi : InField g) (hc : Cardinal g.v)
    (e : iteration i g r = .ok (.Running g2, r2)) :
    SmallField g2 ∧ InField g2 ∧ Cardinal g2.v := by
  obtain ⟨g1, hs, hcs⟩ := iteration_running e
  obtain ⟨h1, h2, h3⟩ := service_small_inv hf hi hc hs
  exact consume_small_inv h1 h2 h3 hcs

/-- The same along a run: actor-in-field is an invariant of every run in a
small field. -/
theorem run_small_inv : ∀ (inputs : List Input) {g g2 : game} {r r2 : RandSrc},
    SmallField g → InField g → Cardinal g.v →
    run inputs g r = .ok (.Running g2, r2) →
    SmallField g2 ∧ InField g2 ∧ Cardinal g2.v
  | [], g, g2, r, r2, hf, hi, hc, e => by
      unfold run at e
      injection e with e
      injection e with hg hr
      injection hg with hg
      subst hg
      exact ⟨hf, hi, hc⟩
  | i :: rest, g, g2, r, r2, hf, hi, hc, e => by
      unfold run at e
      split at e
      · cases e
      · cases e
      · rename_i g1 r1 hit
        obtain ⟨h1, h2, h3⟩ := iteration_small_inv hf hi hc hit
        exact run_small_inv rest h1 h2 h3 e

/-- A tick in a small field with the actor inside and a cardinal heading:
on the outer ring it ends the game, elsewhere the actor is strictly interior
and lands on exactly `(x + dx, y + dy)`. -/
theorem tick_small {g : game} (hf : SmallField g) (hi : InField g) (hc : Cardinal g.v) :
    (OnRing g → service .tick g = .ok (.Terminated .BorderCrash g)) ∧
    (¬ OnRing g → Interior g ∧
      service .tick g =
        .ok (.Running { g with sn := { pos := { x := g.sn.pos.x + g.v.x,
                                                y := g.sn.pos.y + g.v.y } } })) := by
  obtain ⟨hw, hws, hh, hhs⟩ := hf
  obtain ⟨hx0, hx1, hy0, hy1⟩ := hi
  obtain ⟨hd0, hd1, he0, he1⟩ := hc.bounds
  have hb := borderCrash_iff_onRing g (isInt_of_small hw hws).1 (isInt_of_small hh hhs).1
    (isInt_of_small hw hws).2 (isInt_of_small hh hhs).2
  constructor
  · intro hO
    simp [service, hb.mpr hO]
  · intro hO
    have hbf : ¬ borderCrash g = true := fun h => hO (hb.mp h)
    have hint : Interior g := by
      unfold OnRing at hO
      unfold Interior
      omega
    refine ⟨hint, ?_⟩
    obtain ⟨ix0, ix1, iy0, iy1⟩ := hint
    have hx : goAdd g.sn.pos.x g.v.x % g.fieldWidth = g.sn.pos.x + g.v.x := by
      rw [goAdd_small hx0 hx1 hws hd0 hd1]
      exact Int.emod_eq_of_lt (by omega) (by omega)
    have hy : goAdd g.sn.pos.y g.v.y % g.fieldHeight = g.sn.pos.y + g.v.y := by
      rw [goAdd_small hy0 hy1 hhs he0 he1]
      exact Int.emod_eq_of_lt (by omega) (by omega)
    simp [service, hbf, step, moveSnake_small g.sn g.v hw hws hh hhs, hx, hy]

/-- On a terminal of at most `2^62` cells a side, the actor is inside the
field and the heading is cardinal in every state the program reaches. -/
theorem play_small_inv {w h : Int} {r r1 : RandSrc} {inputs : List Input} {g : game}
    (hws : w ≤ safeDim) (hhs : h ≤ safeDim)
    (e : play w h r inputs = .ok (.Running g, r1)) :
    SmallField g ∧ InField g ∧ Cardinal g.v := by
  unfold play at e
  split at e
  · cases e
  · rename_i g0 r0 hn
    obtain ⟨hw, hh, hfw, hfh, hin, hv⟩ := newGame_eq_ok hn
    have hf : SmallField g0 := by
      unfold SmallField
      rw [hfw, hfh]
      exact ⟨hw, hws, hh, hhs⟩
    have hc : Cardinal g0.v := by
      rw [hv]; decide
    exact run_small_inv inputs hf hin hc e

/-- Along every run in a small field that starts with the actor inside the
field and a cardinal heading, a tick on the outer ring ends the game and a
tick elsewhere starts strictly inside and lands on exactly
`(x + dx, y + dy)`. -/
theorem run_tick_small {inputs : List Input} {g0 g : game} {r r1 : RandSrc}
    (hf : SmallField g0) (hi : InField g0) (hc : Cardinal g0.v)
    (e : run inputs g0 r = .ok (.Running g, r1)) :
    (OnRing g → service .tick g = .ok (.Terminated .BorderCrash g)) ∧
    (¬ OnRing g → Interior g ∧
      service .tick g =
        .ok (.Running { g with sn := { pos := { x := g.sn.pos.x + g.v.x,
                                                y := g.sn.pos.y + g.v.y } } })) := by
  obtain ⟨h1, h2, h3⟩ := run_small_inv inputs hf hi hc e
  exact tick_small h1 h2 h3

/-! ## The claims -/

/-- C1 (defect of the code). `mod` is documented to always return positive
numbers, but for a modulus above `2^62` the sum `n%m + m` overflows the
64-bit `int`: with `n = 1` and `m = maxInt`, both of them Go `int`s and
`m > 0`, `mod` returns `-1`, which is not in `[0, m)`. For every modulus in
`(0, 2^62]` the claim holds (`mod_spec_small`). -/
theorem mod_one_maxInt :
    IsInt 1 ∧ IsInt maxInt ∧ 0 < maxInt ∧ mod 1 maxInt = .ok (-1) := by
  decide

/-- C2. Actor-in-field is an invariant of the game on every terminal whose
width and height are positive and at most `2^62` (the range in which the sum
inside `mod` stays a Go `int`; it contains every size a terminal reports).
`newGame` returns and places the actor inside the field; from a state with
the actor inside the field, the move of a tick with any cardinal heading
(`moveSnake`, `step`), the four heading setters, both consumption checks and
every whole loop iteration give a state with the actor still inside; so the
actor is inside the field in every state the program reaches. -/
theorem actor_in_field_invariant (w h : Int) (hw : 0 < w) (hws : w ≤ safeDim)
    (hh : 0 < h) (hhs : h ≤ safeDim) :
    (∀ r, ∃ g r1, newGame w h r = .ok (g, r1) ∧ g.fieldWidth = w ∧ g.fieldHeight = h
        ∧ InField g)
    ∧ (∀ g, g.fieldWidth = w → g.fieldHeight = h → InField g →
        (Cardinal g.v → ∃ s, moveSnake g.sn g.v w h = .ok s
            ∧ 0 ≤ s.pos.x ∧ s.pos.x < w ∧ 0 ≤ s.pos.y ∧ s.pos.y < h)
        ∧ (Cardinal g.v → ∃ g1, step g = .ok g1 ∧ InField g1
            ∧ g1.fieldWidth = w ∧ g1.fieldHeight = h)
        ∧ InField (moveLeft g) ∧ InField (moveRight g)
        ∧ InField (moveUp g) ∧ InField (moveDown g)
        ∧ (∀ wa ha r a r1, aplleEaten g wa ha r = .ok (a, r1) → InField { g with apple := a })
        ∧ (∀ we he r en r1, eEaten g we he r = .ok (en, r1) → InField { g with e := en })
        ∧ (∀ i r g2 r2, Cardinal g.v → iteration i g r = .ok (.Running g2, r2) →
            InField g2 ∧ g2.fieldWidth = w ∧ g2.fieldHeight = h))
    ∧ (∀ r inputs g r1, play w h r inputs = .ok (.Running g, r1) →
        InField g ∧ g.fieldWidth = w ∧ g.fieldHeight = h) := by
  refine ⟨?_, ?_, ?_⟩
  · intro r
    obtain ⟨g, r1, e⟩ := newGame_of_pos r hw hh
    obtain ⟨-, -, hfw, hfh, hin, -⟩ := newGame_eq_ok e
    exact ⟨g, r1, e, hfw, hfh, hin⟩
  · intro g hfw hfh hi
    have hf : SmallField g := by
      unfold SmallField
      rw [hfw, hfh]
      exact ⟨hw, hws, hh, hhs⟩
    refine ⟨?_, ?_, hi, hi, hi, hi, fun _ _ _ _ _ _ => hi, fun _ _ _ _ _ _ => hi, ?_⟩
    · intro _
      exact ⟨_, moveSnake_small g.sn g.v hw hws hh hhs,
        Int.emod_nonneg _ (Int.ne_of_gt hw), Int.emod_lt_of_pos _ hw,
        Int.emod_nonneg _ (Int.ne_of_gt hh), Int.emod_lt_of_pos _ hh⟩
    · intro _
      obtain ⟨g1, hs, hin, -, -, -, h1, h2⟩ := step_small hf
      exact ⟨g1, hs, hin, h1.trans hfw, h2.trans hfh⟩
    · intro i r g2 r2 hc e
      obtain ⟨-, hin, -⟩ := iteration_small_inv hf hi hc e
      obtain ⟨h1, h2⟩ := iteration_dims e
      exact ⟨hin, h1.trans hfw, h2.trans hfh⟩
  · intro r inputs g r1 e
    obtain ⟨-, hin, -⟩ := play_small_inv hws hhs e
    unfold play at e
    split at e
    · cases e
    · rename_i g0 r0 hn
      obtain ⟨-, -, hfw, hfh, -, -⟩ := newGame_eq_ok hn
      obtain ⟨h1, h2⟩ := run_dims inputs e
      exact ⟨hin, h1.trans hfw, h2.trans hfh⟩

/-- Witness of C2 on a 10x10 terminal: after startup from the constant
source 5 and one tick the program is in a state with the actor at `(6,5)`,
inside the field. -/
theorem actor_in_field_invariant_witness :
    InField (mk10 6 5 1 0 ⟨5, 5⟩ ⟨5, 5⟩) :=
  ((actor_in_field_invariant 10 10 (by decide) (by decide) (by decide) (by decide)).2.2
    (constSrc 5) [input10 .tick] (mk10 6 5 1 0 ⟨5, 5⟩ ⟨5, 5⟩) _ rfl).1

/-- C3. `borderCrash` is true exactly when the actor's `x` is `0`, its `y` is
`0`, its `x` is `fieldWidth-1` or its `y` is `fieldHeight-1` (Go arithmetic);
for field dimensions that are Go `int`s above `minInt` this is the outer ring
in mathematical arithmetic, and on every strictly interior position
`borderCrash` is false. -/
theorem borderCrash_spec (g : game) :
    (borderCrash g = true ↔
      (g.sn.pos.x = 0 ∨ g.sn.pos.y = 0 ∨ g.sn.pos.x = goSub g.fieldWidth 1
        ∨ g.sn.pos.y = goSub g.fieldHeight 1))
    ∧ (IsInt g.fieldWidth → IsInt g.fieldHeight → minInt < g.fieldWidth → minInt < g.fieldHeight →
        (borderCrash g = true ↔ OnRing g))
    ∧ (IsInt g.fieldWidth → IsInt g.fieldHeight → Interior g → borderCrash g = false) := by
  refine ⟨borderCrash_eq_true g, borderCrash_iff_onRing g, ?_⟩
  intro hw hh hi
  have hw1 : minInt < g.fieldWidth := by
    unfold Interior at hi; unfold minInt; omega
  have hh1 : minInt < g.fieldHeight := by
    unfold Interior at hi; unfold minInt; omega
  have hb := borderCrash_iff_onRing g hw hh hw1 hh1
  have hn : ¬ OnRing g := by
    unfold Interior at hi; unfold OnRing; omega
  cases hbc : borderCrash g with
  | false => rfl
  | true => exact absurd (hb.mp hbc) hn

/-- Witness of C3 on the 10x10 field: at `(5,5)` `borderCrash` is false. -/
theorem borderCrash_spec_witness :
    borderCrash (mk10 5 5 1 0 ⟨2, 2⟩ ⟨7, 7⟩) = false :=
  (borderCrash_spec (mk10 5 5 1 0 ⟨2, 2⟩ ⟨7, 7⟩)).2.2 (by decide) (by decide) (by decide)

/-- C4. Servicing a tick in a state the loop can be in: if `borderCrash`
holds on the current actor position the loop terminates with `BorderCrash`
(the `select` and the whole iteration, with the game value untouched);
otherwise both `mod` calls return, the loop stays running and the new state
is the old one with the actor at `(mod(x+dx, W), mod(y+dy, H))`, everything
else unchanged. The three 10x10 scenarios follow. -/
theorem tick_spec (g : game) (hr : Reachable g) :
    (borderCrash g = true →
      service .tick g = .ok (.Terminated .BorderCrash g)
      ∧ ∀ (wa ha we he : Int) (r : RandSrc),
          iteration { ev := .tick, wa := wa, ha := ha, we := we, he := he } g r
            = .ok (.Terminated .BorderCrash g, r))
    ∧ (borderCrash g = false →
      ∃ x y, mod (goAdd g.sn.pos.x g.v.x) g.fieldWidth = .ok x
        ∧ mod (goAdd g.sn.pos.y g.v.y) g.fieldHeight = .ok y
        ∧ service .tick g = .ok (.Running { g with sn := { pos := { x := x, y := y } } }))
    ∧ (∀ a en, service .tick (mk10 5 5 1 0 a en) = .ok (.Running (mk10 6 5 1 0 a en)))
    ∧ (∀ a en, service .tick (mk10 1 3 (-1) 0 a en) = .ok (.Running (mk10 0 3 (-1) 0 a en)))
    ∧ (∀ a en, service .tick (mk10 0 3 (-1) 0 a en)
          = .ok (.Terminated .BorderCrash (mk10 0 3 (-1) 0 a en))) := by
  obtain ⟨hw, hh⟩ := hr.dims_pos
  refine ⟨?_, ?_, ?_, ?_, ?_⟩
  · intro hb
    refine ⟨by simp [service, hb], ?_⟩
    intro wa ha we he r
    simp [iteration, service, hb]
  · intro hb
    refine ⟨_, _, mod_of_ne_zero _ (Int.ne_of_gt hw), mod_of_ne_zero _ (Int.ne_of_gt hh), ?_⟩
    simp [service, hb, step, moveSnake_of_ne_zero g.sn g.v (Int.ne_of_gt hw) (Int.ne_of_gt hh)]
  · intro a en; rfl
  · intro a en; rfl
  · intro a en; rfl

/-- Witness of C4: the state `newGame` builds on a 10x10 terminal from the
constant source 5 is reachable, and a tick moves its actor from `(5,5)` to
`(6,5)`. -/
theorem tick_spec_witness :
    Reachable (mk10 5 5 1 0 ⟨5, 5⟩ ⟨5, 5⟩)
    ∧ service .tick (mk10 5 5 1 0 ⟨5, 5⟩ ⟨5, 5⟩) = .ok (.Running (mk10 6 5 1 0 ⟨5, 5⟩ ⟨5, 5⟩)) :=
  ⟨⟨10, 10, constSrc 5, [], _, rfl⟩,
   (tick_spec (mk10 5 5 1 0 ⟨5, 5⟩ ⟨5, 5⟩) ⟨10, 10, constSrc 5, [], _, rfl⟩).2.2.1 ⟨5, 5⟩ ⟨5, 5⟩⟩

/-- C5. Let the `select` of an iteration leave the loop running with game
`g1`. Then the iteration is exactly the two consumption checks on `g1`; when
it completes, the actor, the heading and the field dimensions are those of
`g1`, a consumable that differs from the actor on some axis is unchanged and
its check leaves the random source as it found it, and a consumable that
coincides with the actor is the result of `newApple` / `newEnergy` on the
source as the check found it. On a terminal of positive size the iteration
completes. -/
theorem consumption_spec (i : Input) (g g1 : game) (r : RandSrc)
    (hs : service i.ev g = .ok (.Running g1)) :
    (iteration i g r =
      match consume g1 i.wa i.ha i.we i.he r with
      | .error p => .error p
      | .ok (g2, r2) => .ok (.Running g2, r2))
    ∧ (∀ g2 r2, iteration i g r = .ok (.Running g2, r2) →
        g2.sn = g1.sn ∧ g2.v = g1.v ∧ g2.fieldWidth = g1.fieldWidth
        ∧ g2.fieldHeight = g1.fieldHeight
        ∧ ∃ rA,
          ((g1.apple.pos.x ≠ g1.sn.pos.x ∨ g1.apple.pos.y ≠ g1.sn.pos.y) →
              g2.apple = g1.apple ∧ rA = r)
          ∧ ((g1.apple.pos.x = g1.sn.pos.x ∧ g1.apple.pos.y = g1.sn.pos.y) →
              newApple r i.wa i.ha = .ok (g2.apple, rA))
          ∧ ((g1.e.pos.x ≠ g1.sn.pos.x ∨ g1.e.pos.y ≠ g1.sn.pos.y) →
              g2.e = g1.e ∧ r2 = rA)
          ∧ ((g1.e.pos.x = g1.sn.pos.x ∧ g1.e.pos.y = g1.sn.pos.y) →
              newEnergy rA i.we i.he = .ok (g2.e, r2)))
    ∧ (0 < i.wa → 0 < i.ha → 0 < i.we → 0 < i.he →
        ∃ g2 r2, iteration i g r = .ok (.Running g2, r2)) := by
  have hit : iteration i g r =
      match consume g1 i.wa i.ha i.we i.he r with
      | .error p => .error p
      | .ok (g2, r2) => .ok (.Running g2, r2) := by
    simp only [iteration, hs]
  refine ⟨hit, ?_, ?_⟩
  · intro g2 r2 e
    obtain ⟨g1b, hs1, hc⟩ := iteration_running e
    rw [hs] at hs1
    injection hs1 with hs1
    injection hs1 with hs1
    subst hs1
    obtain ⟨a, rA, en, hA, hE, hg⟩ := consume_eq_ok hc
    subst hg
    obtain ⟨hA1, hA2⟩ := aplleEaten_eq_ok hA
    obtain ⟨hE1, hE2⟩ := eEaten_eq_ok hE
    exact ⟨rfl, rfl, rfl, rfl, rA, hA1, hA2, hE1, hE2⟩
  · intro hwa hha hwe hhe
    rw [hit]
    have hA : ∃ a rA, aplleEaten g1 i.wa i.ha r = .ok (a, rA) := by
      unfold aplleEaten
      split
      · exact ⟨_, _, newApple_of_pos r hwa hha⟩
      · exact ⟨_, _, rfl⟩
    obtain ⟨a, rA, hA⟩ := hA
    have hE : ∃ en rE, eEaten { g1 with apple := a } i.we i.he rA = .ok (en, rE) := by
      unfold eEaten
      split
      · exact ⟨_, _, newEnergy_of_pos rA hwe hhe⟩
      · exact ⟨_, _, rfl⟩
    obtain ⟨en, rE, hE⟩ := hE
    exact ⟨{ g1 with apple := a, e := en }, rE, by simp only [consume, hA, hE]⟩

/-- Witness of C5 (scenario 4): actor and apple at `(4,4)`, a non-key event
on a 10x10 terminal; the iteration completes. -/
theorem consumption_spec_witness :
    ∃ g2 r2, iteration (input10 .nonKey) g44 (constSrc 8) = .ok (.Running g2, r2) :=
  (consumption_spec (input10 .nonKey) g44 g44 (constSrc 8) rfl).2.2
    (by decide) (by decide) (by decide) (by decide)

/-- C6 as stated fails. The game `g44` has a 10x10 field and its apple
coincides with the actor; with the terminal now 80x24 and the random source
giving 57, `aplleEaten` puts the apple at `(57, 9)`, and `57` is not below the
field width. -/
theorem relocation_outside_field :
    (g44.apple.pos.x = g44.sn.pos.x ∧ g44.apple.pos.y = g44.sn.pos.y)
    ∧ (aplleEaten g44 80 24 (constSrc 57)).map Prod.fst = .ok { pos := { x := 57, y := 9 } }
    ∧ ¬ ((57 : Int) < g44.fieldWidth) := by
  decide

/-- C6, amended. When a consumption check relocates a consumable, the new
position lies inside the terminal size `w h` that the check itself reads:
`0 <= x < w` and `0 <= y < h`; it lies in the game's field when the terminal
still has the size captured at startup. On a terminal of positive size the
relocation returns. -/
theorem relocation_in_terminal (g : game) (w h : Int) (r : RandSrc) :
    (∀ a r1, (g.apple.pos.x = g.sn.pos.x ∧ g.apple.pos.y = g.sn.pos.y) →
        aplleEaten g w h r = .ok (a, r1) →
        (0 ≤ a.pos.x ∧ a.pos.x < w ∧ 0 ≤ a.pos.y ∧ a.pos.y < h)
        ∧ (w = g.fieldWidth → h = g.fieldHeight →
            0 ≤ a.pos.x ∧ a.pos.x < g.fieldWidth ∧ 0 ≤ a.pos.y ∧ a.pos.y < g.fieldHeight))
    ∧ (∀ en r1, (g.e.pos.x = g.sn.pos.x ∧ g.e.pos.y = g.sn.pos.y) →
        eEaten g w h r = .ok (en, r1) →
        (0 ≤ en.pos.x ∧ en.pos.x < w ∧ 0 ≤ en.pos.y ∧ en.pos.y < h)
        ∧ (w = g.fieldWidth → h = g.fieldHeight →
            0 ≤ en.pos.x ∧ en.pos.x < g.fieldWidth ∧ 0 ≤ en.pos.y ∧ en.pos.y < g.fieldHeight))
    ∧ (0 < w → 0 < h →
        (∃ a r1, aplleEaten g w h r = .ok (a, r1)) ∧ (∃ en r1, eEaten g w h r = .ok (en, r1))) := by
  refine ⟨?_, ?_, ?_⟩
  · intro a r1 hc e
    obtain ⟨-, -, hx0, hx1, hy0, hy1, -⟩ := newApple_eq_ok ((aplleEaten_eq_ok e).2 hc)
    exact ⟨⟨hx0, hx1, hy0, hy1⟩, fun ew eh => by subst ew eh; exact ⟨hx0, hx1, hy0, hy1⟩⟩
  · intro en r1 hc e
    obtain ⟨-, -, hx0, hx1, hy0, hy1, -⟩ := newEnergy_eq_ok ((eEaten_eq_ok e).2 hc)
    exact ⟨⟨hx0, hx1, hy0, hy1⟩, fun ew eh => by subst ew eh; exact ⟨hx0, hx1, hy0, hy1⟩⟩
  · intro hw hh
    constructor
    · unfold aplleEaten
      split
      · exact ⟨_, _, newApple_of_pos r hw hh⟩
      · exact ⟨_, _, rfl⟩
    · unfold eEaten
      split
      · exact ⟨_, _, newEnergy_of_pos r hw hh⟩
      · exact ⟨_, _, rfl⟩

/-- Witness of amended C6: on an 80x24 terminal the apple of `g44` is
relocated, to a position inside 80x24. -/
theorem relocation_in_terminal_witness :
    ∃ a r1, aplleEaten g44 80 24 (constSrc 57) = .ok (a, r1)
      ∧ 0 ≤ a.pos.x ∧ a.pos.x < 80 ∧ 0 ≤ a.pos.y ∧ a.pos.y < 24 :=
  ⟨{ pos := { x := 57, y := 9 } }, { draws := fun _ => 57, used := 2 }, rfl,
   ((relocation_in_terminal g44 80 24 (constSrc 57)).1 { pos := { x := 57, y := 9 } }
      { draws := fun _ => 57, used := 2 } (by decide) rfl).1⟩

/-- C7. Whatever the previous heading, `moveLeft`, `moveRight`, `moveUp` and
`moveDown` set the heading to `(-1,0)`, `(1,0)`, `(0,-1)` and `(0,1)` and
leave the actor, both consumables and the field dimensions unchanged; the
loop applies them on the four arrow keys, and any other key except Esc, and
any event that is not a key event, leaves the whole state, the heading
included, unchanged. Heading `(1,0)` followed by left gives `(-1,0)`. -/
theorem heading_spec (g : game) :
    ((moveLeft g).v = { x := -1, y := 0 } ∧ (moveLeft g).sn = g.sn
      ∧ (moveLeft g).apple = g.apple ∧ (moveLeft g).e = g.e
      ∧ (moveLeft g).fieldWidth = g.fieldWidth ∧ (moveLeft g).fieldHeight = g.fieldHeight)
    ∧ ((moveRight g).v = { x := 1, y := 0 } ∧ (moveRight g).sn = g.sn
      ∧ (moveRight g).apple = g.apple ∧ (moveRight g).e = g.e
      ∧ (moveRight g).fieldWidth = g.fieldWidth ∧ (moveRight g).fieldHeight = g.fieldHeight)
    ∧ ((moveUp g).v = { x := 0, y := -1 } ∧ (moveUp g).sn = g.sn
      ∧ (moveUp g).apple = g.apple ∧ (moveUp g).e = g.e
      ∧ (moveUp g).fieldWidth = g.fieldWidth ∧ (moveUp g).fieldHeight = g.fieldHeight)
    ∧ ((moveDown g).v = { x := 0, y := 1 } ∧ (moveDown g).sn = g.sn
      ∧ (moveDown g).apple = g.apple ∧ (moveDown g).e = g.e
      ∧ (moveDown g).fieldWidth = g.fieldWidth ∧ (moveDown g).fieldHeight = g.fieldHeight)
    ∧ service (.key .ArrowLeft) g = .ok (.Running (moveLeft g))
    ∧ service (.key .ArrowRight) g = .ok (.Running (moveRight g))
    ∧ service (.key .ArrowUp) g = .ok (.Running (moveUp g))
    ∧ service (.key .ArrowDown) g = .ok (.Running (moveDown g))
    ∧ service (.key .Other) g = .ok (.Running g)
    ∧ service .nonKey g = .ok (.Running g)
    ∧ (∀ a en, service (.key .ArrowLeft) (mk10 5 5 1 0 a en)
          = .ok (.Running (mk10 5 5 (-1) 0 a en))) := by
  refine ⟨⟨rfl, rfl, rfl, rfl, rfl, rfl⟩, ⟨rfl, rfl, rfl, rfl, rfl, rfl⟩,
    ⟨rfl, rfl, rfl, rfl, rfl, rfl⟩, ⟨rfl, rfl, rfl, rfl, rfl, rfl⟩, rfl, rfl, rfl, rfl, rfl, rfl,
    fun _ _ => rfl⟩

/-- C8. In every state, a quit (Esc) key event makes the `select` return:
the loop terminates with `Quit` and the game value and the random source are
exactly those before the event, so no movement and no consumption check took
place; later inputs are not serviced. -/
theorem quit_spec (g : game) (r : RandSrc) (wa ha we he : Int) (rest : List Input) :
    service (.key .Esc) g = .ok (.Terminated .Quit g)
    ∧ iteration { ev := .key .Esc, wa := wa, ha := ha, we := we, he := he } g r
        = .ok (.Terminated .Quit g, r)
    ∧ run ({ ev := .key .Esc, wa := wa, ha := ha, we := we, he := he } :: rest) g r
        = .ok (.Terminated .Quit g, r) := by
  refine ⟨rfl, rfl, ?_⟩
  simp [run, iteration, service]

/-- C9 as stated fails: with modulus `0`, `mod` panics with an integer
division by zero, and so does `moveSnake` on a field of width `0`. -/
theorem mod_zero_panics :
    mod 5 0 = .error .divideByZero
    ∧ moveSnake { pos := { x := 5, y := 5 } } { x := 1, y := 0 } 0 10 = .error .divideByZero := by
  decide

/-- C9, amended. `mod` returns a value exactly when the modulus is not zero,
`moveSnake` exactly when the field width and the field height are both not
zero, and integer division by zero is the only failure of either;
`borderCrash` and the four heading setters return a value on every input. -/
theorem transitions_total (n m : Int) (s : snake) (v : coord) (fw fh : Int) (g : game) :
    (m ≠ 0 → ∃ x, mod n m = .ok x)
    ∧ (m = 0 → mod n m = .error .divideByZero)
    ∧ (fw ≠ 0 → fh ≠ 0 → ∃ s1, moveSnake s v fw fh = .ok s1)
    ∧ ((fw = 0 ∨ fh = 0) → moveSnake s v fw fh = .error .divideByZero)
    ∧ (∃ b, borderCrash g = b)
    ∧ (∃ g1, moveLeft g = g1) ∧ (∃ g1, moveRight g = g1)
    ∧ (∃ g1, moveUp g = g1) ∧ (∃ g1, moveDown g = g1) := by
  refine ⟨fun hm => ⟨_, mod_of_ne_zero n hm⟩, fun hm => by subst hm; exact mod_zero n,
    fun hw hh => ⟨_, moveSnake_of_ne_zero s v hw hh⟩, ?_, ⟨_, rfl⟩, ⟨_, rfl⟩, ⟨_, rfl⟩, ⟨_, rfl⟩,
    ⟨_, rfl⟩⟩
  intro h
  by_cases hw : fw = 0
  · subst hw
    simp [moveSnake, mod_zero]
  · rcases h with h | h
    · exact absurd h hw
    · subst h
      simp [moveSnake, mod_of_ne_zero _ hw, mod_zero]

/-- Witness of amended C9: `mod(-3, 10)` and a move on a 10x10 field
return. -/
theorem transitions_total_witness :
    (∃ x, mod (-3) 10 = .ok x)
    ∧ (∃ s1, moveSnake { pos := { x := 5, y := 5 } } { x := 1, y := 0 } 10 10 = .ok s1)
    ∧ mod (-3) 0 = .error .divideByZero
    ∧ moveSnake { pos := { x := 5, y := 5 } } { x := 1, y := 0 } 0 10 = .error .divideByZero :=
  ⟨(transitions_total (-3) 10 { pos := { x := 5, y := 5 } } { x := 1, y := 0 } 10 10 g44).1
      (by decide),
   (transitions_total (-3) 10 { pos := { x := 5, y := 5 } } { x := 1, y := 0 } 10 10 g44).2.2.1
      (by decide) (by decide),
   (transitions_total (-3) 0 { pos := { x := 5, y := 5 } } { x := 1, y := 0 } 0 10 g44).2.1 rfl,
   (transitions_total (-3) 0 { pos := { x := 5, y := 5 } } { x := 1, y := 0 } 0 10 g44).2.2.2.1
      (Or.inl rfl)⟩

/-- C10. The outer ring is always fatal and never a wrap boundary. Take any
run that starts from a state whose field width and height are positive and at
most `2^62` (the range in which the sum inside `mod` stays a Go `int`; it
contains every size a terminal reports), with the actor inside the field and
a cardinal heading, and let `g` be the game after any number of iterations.
A tick serviced while the actor of `g` is on the outer ring terminates the
game, the game value untouched. A tick anywhere else finds the actor strictly
interior, both `mod` calls return their argument `x + dx`, `y + dy`
unchanged, and the actor lands on exactly `(x + dx, y + dy)`, still inside
the field. So every tick that moves the actor starts strictly inside and
moves it by the heading alone. -/
theorem outer_ring_fatal (g0 : game) (hw : 0 < g0.fieldWidth) (hws : g0.fieldWidth ≤ safeDim)
    (hh : 0 < g0.fieldHeight) (hhs : g0.fieldHeight ≤ safeDim)
    (hi : InField g0) (hc : Cardinal g0.v)
    (inputs : List Input) (r r1 : RandSrc) (g : game)
    (e : run inputs g0 r = .ok (.Running g, r1)) :
    (OnRing g →
      service .tick g = .ok (.Terminated .BorderCrash g)
      ∧ ∀ (wa ha we he : Int) (r2 : RandSrc),
          iteration { ev := .tick, wa := wa, ha := ha, we := we, he := he } g r2
            = .ok (.Terminated .BorderCrash g, r2))
    ∧ (¬ OnRing g →
      Interior g
      ∧ mod (goAdd g.sn.pos.x g.v.x) g.fieldWidth = .ok (g.sn.pos.x + g.v.x)
      ∧ mod (goAdd g.sn.pos.y g.v.y) g.fieldHeight = .ok (g.sn.pos.y + g.v.y)
      ∧ service .tick g =
          .ok (.Running { g with sn := { pos := { x := g.sn.pos.x + g.v.x,
                                                  y := g.sn.pos.y + g.v.y } } }))
    ∧ (∀ g1, service .tick g = .ok (.Running g1) →
      Interior g
      ∧ g1.sn.pos = { x := g.sn.pos.x + g.v.x, y := g.sn.pos.y + g.v.y }
      ∧ InField g1) := by
  have hf0 : SmallField g0 := ⟨hw, hws, hh, hhs⟩
  obtain ⟨hf, hin, hcard⟩ := run_small_inv inputs hf0 hi hc e
  obtain ⟨hring, hmove⟩ := tick_small hf hin hcard
  obtain ⟨gw, gws, gh, ghs⟩ := hf
  obtain ⟨hx0, hx1, hy0, hy1⟩ := hin
  obtain ⟨hd0, hd1, he0, he1⟩ := hcard.bounds
  have hmods : ¬ OnRing g →
      mod (goAdd g.sn.pos.x g.v.x) g.fieldWidth = .ok (g.sn.pos.x + g.v.x)
      ∧ mod (goAdd g.sn.pos.y g.v.y) g.fieldHeight = .ok (g.sn.pos.y + g.v.y) := by
    intro hO
    obtain ⟨⟨ix0, ix1, iy0, iy1⟩, -⟩ := hmove hO
    constructor
    · rw [mod_eq_emod _ gw gws, goAdd_small hx0 hx1 gws hd0 hd1,
        Int.emod_eq_of_lt (by omega) (by omega)]
    · rw [mod_eq_emod _ gh ghs, goAdd_small hy0 hy1 ghs he0 he1,
        Int.emod_eq_of_lt (by omega) (by omega)]
  refine ⟨?_, ?_, ?_⟩
  · intro hO
    have hs := hring hO
    refine ⟨hs, ?_⟩
    intro wa ha we he r2
    simp only [iteration, hs]
  · intro hO
    exact ⟨(hmove hO).1, (hmods hO).1, (hmods hO).2, (hmove hO).2⟩
  · intro g1 hs
    by_cases hO : OnRing g
    · rw [hring hO] at hs
      injection hs with hs
      cases hs
    · obtain ⟨hint, hs1⟩ := hmove hO
      rw [hs1] at hs
      injection hs with hs
      injection hs with hs
      subst hs
      obtain ⟨ix0, ix1, iy0, iy1⟩ := hint
      refine ⟨⟨ix0, ix1, iy0, iy1⟩, rfl, ?_⟩
      show 0 ≤ g.sn.pos.x + g.v.x ∧ g.sn.pos.x + g.v.x < g.fieldWidth
        ∧ 0 ≤ g.sn.pos.y + g.v.y ∧ g.sn.pos.y + g.v.y < g.fieldHeight
      omega

/-- Witness of C10 (scenarios 2 and 3): on the 10x10 field a run of one tick
from `(1,3)` heading `(-1,0)` reaches `(0,3)`, which is on the outer ring, and
the next tick ends the game there. -/
theorem outer_ring_fatal_witness :
    service .tick (mk10 0 3 (-1) 0 ⟨5, 5⟩ ⟨7, 7⟩)
      = .ok (.Terminated .BorderCrash (mk10 0 3 (-1) 0 ⟨5, 5⟩ ⟨7, 7⟩)) :=
  ((outer_ring_fatal (mk10 1 3 (-1) 0 ⟨5, 5⟩ ⟨7, 7⟩) (by decide) (by decide) (by decide)
      (by decide) (by decide) (by decide) [input10 .tick] (constSrc 0) _
      (mk10 0 3 (-1) 0 ⟨5, 5⟩ ⟨7, 7⟩) rfl).1 (by decide)).1

end Snake
